import Mathlib

/-!
Verification of the monotonic (arena) memory resource, the `string`
container and the `to_value` conversion entry point of the Boost.JSON
sources, against their natural-language specification.

The arena allocator's implementation file is not part of the available
sources (only its test suite, `test/monotonic_resource.cpp`, is), so the
allocator is modelled from the specification, with every constant and
policy choice pinned down by the assertions of that test file.  Memory is
modelled as a flat address space of natural numbers: the system allocator
is a bump cursor `brk` handing out fresh, 16-aligned (max-aligned) block
bases, so distinct blocks occupy disjoint address ranges.
-/

namespace BoostJson

/-- Round `p` up to the next multiple of `a` (identity when `a = 0`),
mirroring pointer alignment adjustment. -/
def alignUp (p a : Nat) : Nat :=
  if a = 0 then p else ((p + a - 1) / a) * a

/-- Fuelled helper computing the smallest power of two that is at least
`n`, starting from accumulator `acc`. -/
def pow2From (n : Nat) : Nat → Nat → Nat
  | 0, acc => acc
  | fuel + 1, acc => if n ≤ acc then acc else pow2From n fuel (2 * acc)

/-- Modelled from the spec: the allocator's internal granularity rounding
(`detail` rounding helper of the monotonic resource, absent from the
sources).  Sizes are rounded up to the next power of two, with the
default block size 1024 as an enforced minimum; pinned by the test cases
`10 ↦ 1024`, `1025 ↦ 2048`, `4000 ↦ 4096`. -/
def round_pow2 (n : Nat) : Nat :=
  pow2From (max n 1024) (max n 1024) 1

/-- One block owned by the arena: its base address, its size in bytes and
the bump cursor (`used` bytes from the base are consumed). -/
structure Block where
  base : Nat
  size : Nat
  used : Nat
deriving DecidableEq

/-- Modelled from the spec: the state of `monotonic_resource`
(implementation absent from the sources) — the owned blocks, newest
first, the configured initial block size, and the system allocation
cursor `brk` from which fresh blocks are carved. -/
structure monotonic_resource where
  blocks : List Block
  initSize : Nat
  brk : Nat
deriving DecidableEq

/-- Alignment guaranteed by the underlying system allocator
(`alignof(max_align_t)`). -/
def sysAlign : Nat := 16

/-- Default construction: no block yet, configured block size 1024. -/
def mkDefault (brk0 : Nat) : monotonic_resource :=
  ⟨[], 1024, brk0⟩

/-- Construction with an explicit initial block size, rounded up to the
power-of-two granularity with the 1024 minimum enforced. -/
def mkSized (s brk0 : Nat) : monotonic_resource :=
  ⟨[], round_pow2 s, brk0⟩

/-- Construction over a caller-supplied buffer `[base, base + k)`: the
buffer is used in place as the first block with exactly its given size,
no rounding applied. -/
def mkBuffer (base k : Nat) : monotonic_resource :=
  ⟨[⟨base, k, 0⟩], 1024, base + k⟩

/-- Carve a fresh block of size `max growth (round_pow2 n)` from the
system allocator and serve the request from it; fails (out of memory /
unservable) when even the fresh block cannot hold the aligned request. -/
def newBlockAlloc (st : monotonic_resource) (n align growth : Nat) :
    Option (Nat × monotonic_resource) :=
  let size := max growth (round_pow2 n)
  let base := alignUp st.brk sysAlign
  let p := alignUp base align
  if p + n ≤ base + size then
    some (p, ⟨⟨base, size, p + n - base⟩ :: st.blocks, st.initSize, base + size⟩)
  else
    none

/-- Modelled from the spec: `monotonic_resource::do_allocate` (absent
from the sources).  If the current block has enough aligned space the
cursor is bumped; otherwise a new block is linked whose size is the
larger of twice the previous block size (the configured initial size
when no block exists yet) and the request rounded up to the granularity. -/
def allocate (st : monotonic_resource) (n align : Nat) :
    Option (Nat × monotonic_resource) :=
  match st.blocks with
  | [] => newBlockAlloc st n align st.initSize
  | b :: bs =>
    let p := alignUp (b.base + b.used) align
    if p + n ≤ b.base + b.size then
      some (p, ⟨⟨b.base, b.size, p + n - b.base⟩ :: bs, st.initSize, st.brk⟩)
    else
      newBlockAlloc st n align (2 * b.size)

/-- Run a list of `(size, align)` requests, collecting the `(pointer,
size)` pairs of the successful allocations and the final state. -/
def runAlloc (st : monotonic_resource) :
    List (Nat × Nat) → List (Nat × Nat) × monotonic_resource
  | [] => ([], st)
  | (n, a) :: reqs =>
    match allocate st n a with
    | some (p, st') =>
      let r := runAlloc st' reqs
      ((p, n) :: r.1, r.2)
    | none => runAlloc st reqs

/-- The sizes of the owned blocks, newest first. -/
def blockSizes (st : monotonic_resource) : List Nat :=
  st.blocks.map Block.size

/-- Embedding of the test helper `monotonic_resource_test::in_buffer`. -/
def in_buffer (ptr buffer bufSize : Nat) : Bool :=
  decide (buffer ≤ ptr) && decide (ptr < buffer + bufSize)

/-- The loop of `all_alloc_in_same_block`: perform `k` further
allocations of `align` bytes aligned to `align`, conjoining the
`in_buffer` checks against the first returned pointer. -/
def allocLoop (st : monotonic_resource) (first bytes align : Nat) :
    Nat → Bool × monotonic_resource
  | 0 => (true, st)
  | k + 1 =>
    match allocate st align align with
    | some (p, st') =>
      let r := allocLoop st' first bytes align k
      (in_buffer p first bytes && r.1, r.2)
    | none => (false, st)

/-- Embedding of the test helper
`monotonic_resource_test::all_alloc_in_same_block`. -/
def all_alloc_in_same_block (st : monotonic_resource) (bytes align : Nat) :
    Bool × monotonic_resource :=
  match allocate st align align with
  | some (first, st') => allocLoop st' first bytes align ((bytes - align) / align)
  | none => (false, st)

/-- Chain a further `all_alloc_in_same_block` call onto an accumulated
test result, conjoining the boolean outcomes. -/
def andStep (r : Bool × monotonic_resource) (bytes align : Nat) :
    Bool × monotonic_resource :=
  let s := all_alloc_in_same_block r.2 bytes align
  (r.1 && s.1, s.2)

/-! ### Arithmetic facts about alignment and granularity rounding -/

theorem le_alignUp (p a : Nat) : p ≤ alignUp p a := by
  unfold alignUp
  split
  · exact Nat.le_refl p
  · rename_i ha
    have hpos : 0 < a := Nat.pos_of_ne_zero ha
    have h1 : (p + a - 1) % a < a := Nat.mod_lt _ hpos
    have h2 : (p + a - 1) / a * a + (p + a - 1) % a = p + a - 1 :=
      Nat.div_add_mod' _ _
    omega

theorem dvd_alignUp (p : Nat) {a : Nat} (ha : 0 < a) : a ∣ alignUp p a := by
  unfold alignUp
  rw [if_neg (Nat.pos_iff_ne_zero.mp ha)]
  exact Dvd.dvd.mul_left (Nat.dvd_refl a) _

theorem alignUp_eq_self {p a : Nat} (ha : 0 < a) (h : a ∣ p) :
    alignUp p a = p := by
  obtain ⟨c, rfl⟩ := h
  unfold alignUp
  rw [if_neg (Nat.pos_iff_ne_zero.mp ha)]
  have h1 : a * c + a - 1 = a * c + (a - 1) := by omega
  rw [h1, Nat.mul_add_div ha, Nat.div_eq_of_lt (by omega), Nat.add_zero,
    Nat.mul_comm]

theorem alignUp_one (p : Nat) : alignUp p 1 = p :=
  alignUp_eq_self Nat.one_pos (Nat.one_dvd p)

theorem pow2From_ge (n : Nat) :
    ∀ fuel acc, 0 < acc → n ≤ acc * 2 ^ fuel → n ≤ pow2From n fuel acc := by
  intro fuel
  induction fuel with
  | zero => intro acc _ h; simpa using h
  | succ f ih =>
    intro acc hacc h
    rw [pow2From]
    split
    · assumption
    · refine ih (2 * acc) (by omega) ?_
      have he : acc * 2 ^ (f + 1) = 2 * acc * 2 ^ f := by ring
      rw [he] at h
      exact h

theorem le_round_pow2 (n : Nat) : max n 1024 ≤ round_pow2 n := by
  refine pow2From_ge _ _ 1 Nat.one_pos ?_
  rw [Nat.one_mul]
  exact Nat.le_of_lt (Nat.lt_two_pow _)

theorem round_pow2_ge (n : Nat) : n ≤ round_pow2 n :=
  Nat.le_trans (Nat.le_max_left _ _) (le_round_pow2 n)

theorem round_pow2_ge_min (n : Nat) : 1024 ≤ round_pow2 n :=
  Nat.le_trans (Nat.le_max_right _ _) (le_round_pow2 n)

/-! ### The arena invariant: containment and non-overlap -/

/-- Two allocations, given as `(pointer, size)`, occupy disjoint address
ranges. -/
def allocDisj (x y : Nat × Nat) : Prop :=
  x.1 + x.2 ≤ y.1 ∨ y.1 + y.2 ≤ x.1

/-- The allocation `(pointer, size)` lies inside the consumed prefix of
some block owned by the resource. -/
def inBlock (st : monotonic_resource) (x : Nat × Nat) : Prop :=
  ∃ b ∈ st.blocks, b.base ≤ x.1 ∧ x.1 + x.2 ≤ b.base + b.used

/-- Structural well-formedness of the arena: blocks are listed newest
first at strictly descending, pairwise disjoint address ranges, each
block's cursor is within its size, and every block lies below the
system cursor `brk`. -/
structure Inv (st : monotonic_resource) : Prop where
  pair : st.blocks.Pairwise fun x y => y.base + y.size ≤ x.base
  bounds : ∀ b ∈ st.blocks, b.used ≤ b.size ∧ b.base + b.size ≤ st.brk

theorem inv_mkDefault (brk0 : Nat) : Inv (mkDefault brk0) :=
  ⟨List.Pairwise.nil, by intro b hb; simp [mkDefault] at hb⟩

theorem inv_mkSized (s brk0 : Nat) : Inv (mkSized s brk0) :=
  ⟨List.Pairwise.nil, by intro b hb; simp [mkSized] at hb⟩

theorem inv_mkBuffer (base k : Nat) : Inv (mkBuffer base k) := by
  refine ⟨?_, ?_⟩
  · simp [mkBuffer]
  · intro b hb
    simp only [mkBuffer, List.mem_singleton] at hb
    subst hb
    exact ⟨Nat.zero_le _, Nat.le_refl _⟩

/-- Anatomy of a successful `newBlockAlloc`. -/
theorem newBlockAlloc_eq {st : monotonic_resource} {n a g p : Nat}
    {st' : monotonic_resource}
    (h : newBlockAlloc st n a g = some (p, st')) :
    p = alignUp (alignUp st.brk sysAlign) a ∧
    p + n ≤ alignUp st.brk sysAlign + max g (round_pow2 n) ∧
    st' = ⟨⟨alignUp st.brk sysAlign, max g (round_pow2 n),
            p + n - alignUp st.brk sysAlign⟩ :: st.blocks, st.initSize,
           alignUp st.brk sysAlign + max g (round_pow2 n)⟩ := by
  simp only [newBlockAlloc] at h
  split at h
  · rename_i hfit
    simp only [Option.some.injEq, Prod.mk.injEq] at h
    obtain ⟨h1, h2⟩ := h
    subst h1
    exact ⟨rfl, hfit, h2.symm⟩
  · simp at h

/-- One successful allocation preserves the invariant, keeps every old
allocation covered, covers the new allocation, and separates the new
allocation from everything previously covered. -/
theorem allocate_step {st : monotonic_resource} {n a p : Nat}
    {st' : monotonic_resource}
    (hinv : Inv st) (h : allocate st n a = some (p, st')) :
    Inv st' ∧
    (∀ x, inBlock st x → inBlock st' x) ∧
    inBlock st' (p, n) ∧
    (∀ x, inBlock st x → allocDisj x (p, n)) := by
  obtain ⟨hpair, hbounds⟩ := hinv
  have hnew : ∀ g, newBlockAlloc st n a g = some (p, st') →
      Inv st' ∧ (∀ x, inBlock st x → inBlock st' x) ∧
      inBlock st' (p, n) ∧ (∀ x, inBlock st x → allocDisj x (p, n)) := by
    intro g hg
    obtain ⟨hp, hfit, hst⟩ := newBlockAlloc_eq hg
    subst hst
    set nbase := alignUp st.brk sysAlign with hnb
    have hbrk : st.brk ≤ nbase := le_alignUp _ _
    have hpge : nbase ≤ p := hp ▸ le_alignUp _ _
    have hold : ∀ b ∈ st.blocks, b.base + b.size ≤ nbase := by
      intro b hb
      exact Nat.le_trans (hbounds b hb).2 hbrk
    have holdalloc : ∀ x, inBlock st x → x.1 + x.2 ≤ nbase := by
      intro x hx
      obtain ⟨b, hb, _, hend⟩ := hx
      have := hbounds b hb
      have := hold b hb
      omega
    refine ⟨⟨?_, ?_⟩, ?_, ?_, ?_⟩
    · exact List.Pairwise.cons (by intro b hb; exact hold b hb) hpair
    · intro b hb
      rcases List.mem_cons.mp hb with hb | hb
      · subst hb
        constructor
        · simp only
          omega
        · simp only
          omega
      · have := hbounds b hb
        constructor
        · exact this.1
        · simp only
          omega
    · intro x hx
      obtain ⟨b, hb, h1, h2⟩ := hx
      exact ⟨b, List.mem_cons_of_mem _ hb, h1, h2⟩
    · refine ⟨⟨nbase, max g (round_pow2 n), p + n - nbase⟩,
        List.mem_cons_self _ _, hpge, ?_⟩
      simp only
      omega
    · intro x hx
      left
      exact Nat.le_trans (holdalloc x hx) hpge
  rw [allocate] at h
  split at h
  · rename_i heq
    exact hnew _ h
  · rename_i b bs heq
    dsimp only at h
    split at h
    · rename_i hfit
      simp only [Option.some.injEq, Prod.mk.injEq] at h
      obtain ⟨h1, h2⟩ := h
      subst h1
      subst h2
      have hcur : b.base + b.used ≤ alignUp (b.base + b.used) a :=
        le_alignUp _ _
      have hb0 : b.used ≤ b.size ∧ b.base + b.size ≤ st.brk :=
        hbounds b (heq ▸ List.mem_cons_self _ _)
      have hrest : ∀ c ∈ bs, c.base + c.size ≤ b.base := by
        intro c hc
        have := List.pairwise_cons.mp (heq ▸ hpair)
        exact this.1 c hc
      refine ⟨⟨?_, ?_⟩, ?_, ?_, ?_⟩
      · refine List.Pairwise.cons ?_ (List.pairwise_cons.mp (heq ▸ hpair)).2
        intro c hc
        exact hrest c hc
      · intro c hc
        rcases List.mem_cons.mp hc with hc | hc
        · rw [hc]
          refine ⟨by dsimp only; omega, by dsimp only; omega⟩
        · have := hbounds c (heq ▸ List.mem_cons_of_mem _ hc)
          simpa using this
      · intro x hx
        obtain ⟨c, hc, h1, h2⟩ := hx
        rw [heq] at hc
        rcases List.mem_cons.mp hc with hc | hc
        · rw [hc] at h1 h2
          refine ⟨⟨b.base, b.size, alignUp (b.base + b.used) a + n - b.base⟩,
            List.mem_cons_self _ _, by dsimp only at h1 ⊢; omega, ?_⟩
          dsimp only at h2 ⊢
          omega
        · exact ⟨c, List.mem_cons_of_mem _ hc, h1, h2⟩
      · refine ⟨⟨b.base, b.size, alignUp (b.base + b.used) a + n - b.base⟩,
          List.mem_cons_self _ _, by dsimp only; omega, by dsimp only; omega⟩
      · intro x hx
        obtain ⟨c, hc, h1, h2⟩ := hx
        rw [heq] at hc
        left
        rcases List.mem_cons.mp hc with hc | hc
        · rw [hc] at h1 h2
          dsimp only at h2 ⊢
          omega
        · have hcb := hrest c hc
          have := hbounds c (heq ▸ List.mem_cons_of_mem _ hc)
          dsimp only at h2 ⊢
          omega
    · exact hnew _ h

/-- Running any request sequence from a well-formed state preserves the
invariant; every allocation performed is covered by a block of the final
state, all allocations are pairwise disjoint, and they are disjoint from
anything covered before the run. -/
theorem runAlloc_inv :
    ∀ (reqs : List (Nat × Nat)) (st : monotonic_resource), Inv st →
      Inv (runAlloc st reqs).2 ∧
      (∀ x, inBlock st x → inBlock (runAlloc st reqs).2 x) ∧
      (∀ x, inBlock st x → ∀ y ∈ (runAlloc st reqs).1, allocDisj x y) ∧
      (∀ y ∈ (runAlloc st reqs).1, inBlock (runAlloc st reqs).2 y) ∧
      (runAlloc st reqs).1.Pairwise allocDisj := by
  intro reqs
  induction reqs with
  | nil =>
    intro st hinv
    refine ⟨hinv, fun x hx => hx, ?_, ?_, List.Pairwise.nil⟩
    · intro x _ y hy
      simp [runAlloc] at hy
    · intro y hy
      simp [runAlloc] at hy
  | cons r rest ih =>
    intro st hinv
    obtain ⟨n, a⟩ := r
    cases hall : allocate st n a with
    | none =>
      have hrw : runAlloc st ((n, a) :: rest) = runAlloc st rest := by
        rw [runAlloc, hall]
      rw [hrw]
      exact ih st hinv
    | some pr =>
      obtain ⟨p, st'⟩ := pr
      obtain ⟨hinv', hmono, hcov, hdisj⟩ := allocate_step hinv hall
      obtain ⟨ih1, ih2, ih3, ih4, ih5⟩ := ih st' hinv'
      have hrw : runAlloc st ((n, a) :: rest) =
          ((p, n) :: (runAlloc st' rest).1, (runAlloc st' rest).2) := by
        rw [runAlloc, hall]
      rw [hrw]
      refine ⟨ih1, ?_, ?_, ?_, ?_⟩
      · intro x hx
        exact ih2 x (hmono x hx)
      · intro x hx y hy
        rcases List.mem_cons.mp hy with hy | hy
        · rw [hy]
          exact hdisj x hx
        · exact ih3 x (hmono x hx) y hy
      · intro y hy
        rcases List.mem_cons.mp hy with hy | hy
        · rw [hy]
          exact ih2 _ hcov
        · exact ih4 y hy
      · exact List.Pairwise.cons (fun y hy => ih3 _ hcov y hy) ih5

/-- Soundness of a full allocation run: every returned pointer addresses
`n` bytes inside some owned block, and no two returned allocations
overlap. -/
def allocSound (st : monotonic_resource) (reqs : List (Nat × Nat)) : Prop :=
  (∀ y ∈ (runAlloc st reqs).1, inBlock (runAlloc st reqs).2 y) ∧
  (runAlloc st reqs).1.Pairwise allocDisj

/-- C1: for every sequence of allocation requests to a monotonic
resource — default-constructed, constructed with any initial block size,
or constructed over any caller-supplied buffer — every pointer returned
by `allocate` lies within some block owned by the resource, and no two
live allocations overlap. -/
theorem monotonic_resource_allocations_contained_and_disjoint
    (reqs : List (Nat × Nat)) (brk0 s bufBase bufSize : Nat) :
    allocSound (mkDefault brk0) reqs ∧ allocSound (mkSized s brk0) reqs ∧
    allocSound (mkBuffer bufBase bufSize) reqs := by
  refine ⟨?_, ?_, ?_⟩
  · obtain ⟨_, _, _, h4, h5⟩ := runAlloc_inv reqs _ (inv_mkDefault brk0)
    exact ⟨h4, h5⟩
  · obtain ⟨_, _, _, h4, h5⟩ := runAlloc_inv reqs _ (inv_mkSized s brk0)
    exact ⟨h4, h5⟩
  · obtain ⟨_, _, _, h4, h5⟩ := runAlloc_inv reqs _ (inv_mkBuffer bufBase bufSize)
    exact ⟨h4, h5⟩

/-- C4: every successful `allocate(n, align)` returns a pointer whose
address is divisible by `align` and which addresses at least `n` usable
bytes inside one of the resource's blocks; a request that cannot be
served yields `none` (the out-of-memory condition is surfaced, never
replaced by a bogus pointer). -/
theorem monotonic_resource_allocate_aligned_and_usable
    {st st' : monotonic_resource} {n a p : Nat} (ha : 0 < a)
    (h : allocate st n a = some (p, st')) :
    p % a = 0 ∧ ∃ b ∈ st'.blocks, b.base ≤ p ∧ p + n ≤ b.base + b.size := by
  have hnewb : ∀ g, newBlockAlloc st n a g = some (p, st') →
      p % a = 0 ∧ ∃ b ∈ st'.blocks, b.base ≤ p ∧ p + n ≤ b.base + b.size := by
    intro g hg
    obtain ⟨hp, hfit, hst⟩ := newBlockAlloc_eq hg
    subst hst
    constructor
    · rw [hp]
      exact (Nat.dvd_iff_mod_eq_zero).mp (dvd_alignUp _ ha)
    · refine ⟨_, List.mem_cons_self _ _, ?_, ?_⟩
      · exact hp ▸ le_alignUp _ _
      · exact hfit
  rw [allocate] at h
  split at h
  · exact hnewb _ h
  · rename_i b bs heq
    dsimp only at h
    split at h
    · rename_i hfit
      simp only [Option.some.injEq, Prod.mk.injEq] at h
      obtain ⟨h1, h2⟩ := h
      subst h1
      subst h2
      constructor
      · exact (Nat.dvd_iff_mod_eq_zero).mp (dvd_alignUp _ ha)
      · have hcur : b.base + b.used ≤ alignUp (b.base + b.used) a :=
          le_alignUp _ _
        refine ⟨_, List.mem_cons_self _ _, by dsimp only; omega, hfit⟩
    · exact hnewb _ h

/-- Witness for C4 at the concrete request `allocate(1, 1)` on a fresh
default-constructed resource. -/
theorem monotonic_resource_allocate_aligned_and_usable_witness :
    0 < 1 ∧ ((0 : Nat) % 1 = 0 ∧
      ∃ b ∈ ({ blocks := [⟨0, 1024, 1⟩], initSize := 1024, brk := 1024 } :
        monotonic_resource).blocks, b.base ≤ 0 ∧ 0 + 1 ≤ b.base + b.size) :=
  ⟨Nat.one_pos,
    @monotonic_resource_allocate_aligned_and_usable (mkDefault 0)
      ⟨[⟨0, 1024, 1⟩], 1024, 1024⟩ 1 1 0 Nat.one_pos (by decide)⟩

/-! ### Symbolic evaluation of the test helper loops -/

theorem allocLoop_fill :
    ∀ (k base size u : Nat) (bs : List Block) (isz brk first bytes a : Nat),
      0 < a → a ∣ (base + u) → u + k * a ≤ size → first ≤ base + u →
      base + u + k * a ≤ first + bytes →
      allocLoop ⟨⟨base, size, u⟩ :: bs, isz, brk⟩ first bytes a k =
        (true, ⟨⟨base, size, u + k * a⟩ :: bs, isz, brk⟩) := by
  intro k
  induction k with
  | zero =>
    intro base size u bs isz brk first bytes a _ _ _ _ _
    simp [allocLoop]
  | succ k ih =>
    intro base size u bs isz brk first bytes a ha hdvd hsz hf hfb
    rw [Nat.succ_mul] at hsz hfb
    have hp : alignUp (base + u) a = base + u := alignUp_eq_self ha hdvd
    have hall : allocate ⟨⟨base, size, u⟩ :: bs, isz, brk⟩ a a =
        some (base + u, ⟨⟨base, size, u + a⟩ :: bs, isz, brk⟩) := by
      simp only [allocate]
      rw [hp, if_pos (by omega)]
      have h2 : base + u + a - base = u + a := by omega
      rw [h2]
    rw [allocLoop, hall]
    dsimp only
    have ihx := ih base size (u + a) bs isz brk first bytes a ha
      (by rw [← Nat.add_assoc]; exact Dvd.dvd.add hdvd (Nat.dvd_refl a))
      (by omega) (by omega) (by omega)
    rw [ihx]
    have hib : in_buffer (base + u) first bytes = true := by
      simp only [in_buffer, Bool.and_eq_true, decide_eq_true_eq]
      omega
    rw [hib]
    have hu : u + a + k * a = u + (k + 1) * a := by rw [Nat.succ_mul]; omega
    rw [Nat.succ_mul]
    simp only [Bool.true_and]
    have : u + a + k * a = u + (k * a + a) := by omega
    rw [this]

theorem newBlockAlloc_serve (st : monotonic_resource) {a : Nat} (g : Nat)
    (ha : 0 < a) (ha16 : a ∣ 16) (hag : a ≤ max g (round_pow2 a)) :
    newBlockAlloc st a a g =
      some (alignUp st.brk sysAlign,
        ⟨⟨alignUp st.brk sysAlign, max g (round_pow2 a), a⟩ :: st.blocks,
         st.initSize, alignUp st.brk sysAlign + max g (round_pow2 a)⟩) := by
  have hd : a ∣ alignUp st.brk sysAlign :=
    Nat.dvd_trans ha16 (dvd_alignUp st.brk (by decide))
  have hp : alignUp (alignUp st.brk sysAlign) a = alignUp st.brk sysAlign :=
    alignUp_eq_self ha hd
  simp only [newBlockAlloc]
  rw [hp, if_pos (by omega)]
  have h2 : alignUp st.brk sysAlign + a - alignUp st.brk sysAlign = a := by omega
  rw [h2]

theorem all_alloc_in_head (base size u : Nat) (bs : List Block)
    (isz brk bytes a : Nat)
    (ha : 0 < a) (hdvd : a ∣ (base + u)) (hab : a ∣ bytes) (hba : a ≤ bytes)
    (hfit : u + bytes ≤ size) :
    all_alloc_in_same_block ⟨⟨base, size, u⟩ :: bs, isz, brk⟩ bytes a =
      (true, ⟨⟨base, size, u + bytes⟩ :: bs, isz, brk⟩) := by
  have hp : alignUp (base + u) a = base + u := alignUp_eq_self ha hdvd
  have hall : allocate ⟨⟨base, size, u⟩ :: bs, isz, brk⟩ a a =
      some (base + u, ⟨⟨base, size, u + a⟩ :: bs, isz, brk⟩) := by
    simp only [allocate]
    rw [hp, if_pos (by omega)]
    have h2 : base + u + a - base = u + a := by omega
    rw [h2]
  rw [all_alloc_in_same_block, hall]
  dsimp only
  have hka : (bytes - a) / a * a = bytes - a :=
    Nat.div_mul_cancel ((Nat.dvd_sub' hab (Nat.dvd_refl a)))
  have hx := allocLoop_fill ((bytes - a) / a) base size (u + a) bs isz brk
    (base + u) bytes a ha
    (by rw [← Nat.add_assoc]; exact Dvd.dvd.add hdvd (Nat.dvd_refl a))
    (by omega) (by omega) (by omega)
  rw [hx]
  have h3 : u + a + (bytes - a) / a * a = u + bytes := by omega
  rw [h3]

theorem all_alloc_new_block (base size u : Nat) (bs : List Block)
    (isz brk bytes a : Nat)
    (ha : 0 < a) (ha16 : a ∣ 16) (hab : a ∣ bytes) (hba : a ≤ bytes)
    (hnofit : base + size < alignUp (base + u) a + a)
    (hbytes : bytes ≤ max (2 * size) (round_pow2 a)) :
    all_alloc_in_same_block ⟨⟨base, size, u⟩ :: bs, isz, brk⟩ bytes a =
      (true, ⟨⟨alignUp brk sysAlign, max (2 * size) (round_pow2 a), bytes⟩ ::
        ⟨base, size, u⟩ :: bs, isz,
        alignUp brk sysAlign + max (2 * size) (round_pow2 a)⟩) := by
  have hall : allocate ⟨⟨base, size, u⟩ :: bs, isz, brk⟩ a a =
      some (alignUp brk sysAlign,
        ⟨⟨alignUp brk sysAlign, max (2 * size) (round_pow2 a), a⟩ ::
          ⟨base, size, u⟩ :: bs, isz,
         alignUp brk sysAlign + max (2 * size) (round_pow2 a)⟩) := by
    simp only [allocate]
    rw [if_neg (by omega)]
    exact newBlockAlloc_serve _ _ ha ha16 (by omega)
  rw [all_alloc_in_same_block, hall]
  dsimp only
  have hka : (bytes - a) / a * a = bytes - a :=
    Nat.div_mul_cancel ((Nat.dvd_sub' hab (Nat.dvd_refl a)))
  have hd : a ∣ alignUp brk sysAlign :=
    Nat.dvd_trans ha16 (dvd_alignUp brk (by decide))
  have hx := allocLoop_fill ((bytes - a) / a) (alignUp brk sysAlign)
    (max (2 * size) (round_pow2 a)) a (⟨base, size, u⟩ :: bs) isz
    (alignUp brk sysAlign + max (2 * size) (round_pow2 a))
    (alignUp brk sysAlign) bytes a ha
    (Dvd.dvd.add hd (Nat.dvd_refl a))
    (by omega) (by omega) (by omega)
  rw [hx]
  have h3 : a + (bytes - a) / a * a = bytes := by omega
  rw [h3]

theorem all_alloc_from_empty (isz brk bytes a : Nat)
    (ha : 0 < a) (ha16 : a ∣ 16) (hab : a ∣ bytes) (hba : a ≤ bytes)
    (hbytes : bytes ≤ max isz (round_pow2 a)) :
    all_alloc_in_same_block ⟨[], isz, brk⟩ bytes a =
      (true, ⟨[⟨alignUp brk sysAlign, max isz (round_pow2 a), bytes⟩], isz,
        alignUp brk sysAlign + max isz (round_pow2 a)⟩) := by
  have hall : allocate ⟨[], isz, brk⟩ a a =
      some (alignUp brk sysAlign,
        ⟨[⟨alignUp brk sysAlign, max isz (round_pow2 a), a⟩], isz,
         alignUp brk sysAlign + max isz (round_pow2 a)⟩) := by
    simp only [allocate]
    exact newBlockAlloc_serve _ _ ha ha16 (by omega)
  rw [all_alloc_in_same_block, hall]
  dsimp only
  have hka : (bytes - a) / a * a = bytes - a :=
    Nat.div_mul_cancel ((Nat.dvd_sub' hab (Nat.dvd_refl a)))
  have hd : a ∣ alignUp brk sysAlign :=
    Nat.dvd_trans ha16 (dvd_alignUp brk (by decide))
  have hx := allocLoop_fill ((bytes - a) / a) (alignUp brk sysAlign)
    (max isz (round_pow2 a)) a [] isz
    (alignUp brk sysAlign + max isz (round_pow2 a))
    (alignUp brk sysAlign) bytes a ha
    (Dvd.dvd.add hd (Nat.dvd_refl a))
    (by omega) (by omega) (by omega)
  rw [hx]
  have h3 : a + (bytes - a) / a * a = bytes := by omega
  rw [h3]


/-! ### The growth policy and the block-size sequences of the test suite -/

/-- When the current block cannot satisfy a request, the freshly linked
block's size is the larger of twice the previous block's size and the
request rounded up to the granularity. -/
theorem growth_formula {st st' : monotonic_resource} {b : Block}
    {bs : List Block} {n a p : Nat}
    (heq : st.blocks = b :: bs)
    (hnofit : b.base + b.size < alignUp (b.base + b.used) a + n)
    (hall : allocate st n a = some (p, st')) :
    blockSizes st' = max (2 * b.size) (round_pow2 n) :: blockSizes st := by
  rw [allocate, heq] at hall
  dsimp only at hall
  rw [if_neg (by omega)] at hall
  obtain ⟨_, _, hst⟩ := newBlockAlloc_eq hall
  subst hst
  rfl

/-- The first sub-test of `monotonic_resource_test::testGeneral`: seven
consecutive `all_alloc_in_same_block` rounds on a default-constructed
resource, each expected to fill one block to capacity. -/
def testGrowth : Bool × monotonic_resource :=
  andStep (andStep (andStep (andStep (andStep (andStep (andStep
    (true, mkDefault 0) 1024 1) 2048 2) 4096 1) 8192 4) 16384 1) 32768 8)
    65536 1

theorem testGrowth_eval :
    testGrowth =
      (true, ⟨[⟨64512, 65536, 65536⟩, ⟨31744, 32768, 32768⟩,
        ⟨15360, 16384, 16384⟩, ⟨7168, 8192, 8192⟩, ⟨3072, 4096, 4096⟩,
        ⟨1024, 2048, 2048⟩, ⟨0, 1024, 1024⟩], 1024, 130048⟩) := by
  have e1 : all_alloc_in_same_block ⟨[], 1024, 0⟩ 1024 1 =
      (true, ⟨[⟨0, 1024, 1024⟩], 1024, 1024⟩) :=
    (all_alloc_from_empty 1024 0 1024 1 (by decide) (by decide) (by decide)
      (by decide) (by decide)).trans (by decide)
  have e2 : all_alloc_in_same_block ⟨[⟨0, 1024, 1024⟩], 1024, 1024⟩ 2048 2 =
      (true, ⟨[⟨1024, 2048, 2048⟩, ⟨0, 1024, 1024⟩], 1024, 3072⟩) :=
    (all_alloc_new_block 0 1024 1024 [] 1024 1024 2048 2 (by decide)
      (by decide) (by decide) (by decide) (by decide) (by decide)).trans
      (by decide)
  have e3 : all_alloc_in_same_block
      ⟨[⟨1024, 2048, 2048⟩, ⟨0, 1024, 1024⟩], 1024, 3072⟩ 4096 1 =
      (true, ⟨[⟨3072, 4096, 4096⟩, ⟨1024, 2048, 2048⟩, ⟨0, 1024, 1024⟩],
        1024, 7168⟩) :=
    (all_alloc_new_block 1024 2048 2048 [⟨0, 1024, 1024⟩] 1024 3072 4096 1
      (by decide) (by decide) (by decide) (by decide) (by decide)
      (by decide)).trans (by decide)
  have e4 : all_alloc_in_same_block
      ⟨[⟨3072, 4096, 4096⟩, ⟨1024, 2048, 2048⟩, ⟨0, 1024, 1024⟩], 1024,
        7168⟩ 8192 4 =
      (true, ⟨[⟨7168, 8192, 8192⟩, ⟨3072, 4096, 4096⟩, ⟨1024, 2048, 2048⟩,
        ⟨0, 1024, 1024⟩], 1024, 15360⟩) :=
    (all_alloc_new_block 3072 4096 4096 [⟨1024, 2048, 2048⟩, ⟨0, 1024, 1024⟩]
      1024 7168 8192 4 (by decide) (by decide) (by decide) (by decide)
      (by decide) (by decide)).trans (by decide)
  have e5 : all_alloc_in_same_block
      ⟨[⟨7168, 8192, 8192⟩, ⟨3072, 4096, 4096⟩, ⟨1024, 2048, 2048⟩,
        ⟨0, 1024, 1024⟩], 1024, 15360⟩ 16384 1 =
      (true, ⟨[⟨15360, 16384, 16384⟩, ⟨7168, 8192, 8192⟩, ⟨3072, 4096, 4096⟩,
        ⟨1024, 2048, 2048⟩, ⟨0, 1024, 1024⟩], 1024, 31744⟩) :=
    (all_alloc_new_block 7168 8192 8192 [⟨3072, 4096, 4096⟩,
      ⟨1024, 2048, 2048⟩, ⟨0, 1024, 1024⟩] 1024 15360 16384 1 (by decide)
      (by decide) (by decide) (by decide) (by decide) (by decide)).trans
      (by decide)
  have e6 : all_alloc_in_same_block
      ⟨[⟨15360, 16384, 16384⟩, ⟨7168, 8192, 8192⟩, ⟨3072, 4096, 4096⟩,
        ⟨1024, 2048, 2048⟩, ⟨0, 1024, 1024⟩], 1024, 31744⟩ 32768 8 =
      (true, ⟨[⟨31744, 32768, 32768⟩, ⟨15360, 16384, 16384⟩,
        ⟨7168, 8192, 8192⟩, ⟨3072, 4096, 4096⟩, ⟨1024, 2048, 2048⟩,
        ⟨0, 1024, 1024⟩], 1024, 64512⟩) :=
    (all_alloc_new_block 15360 16384 16384 [⟨7168, 8192, 8192⟩,
      ⟨3072, 4096, 4096⟩, ⟨1024, 2048, 2048⟩, ⟨0, 1024, 1024⟩] 1024 31744
      32768 8 (by decide) (by decide) (by decide) (by decide) (by decide)
      (by decide)).trans (by decide)
  have e7 : all_alloc_in_same_block
      ⟨[⟨31744, 32768, 32768⟩, ⟨15360, 16384, 16384⟩, ⟨7168, 8192, 8192⟩,
        ⟨3072, 4096, 4096⟩, ⟨1024, 2048, 2048⟩, ⟨0, 1024, 1024⟩], 1024,
        64512⟩ 65536 1 =
      (true, ⟨[⟨64512, 65536, 65536⟩, ⟨31744, 32768, 32768⟩,
        ⟨15360, 16384, 16384⟩, ⟨7168, 8192, 8192⟩, ⟨3072, 4096, 4096⟩,
        ⟨1024, 2048, 2048⟩, ⟨0, 1024, 1024⟩], 1024, 130048⟩) :=
    (all_alloc_new_block 31744 32768 32768 [⟨15360, 16384, 16384⟩,
      ⟨7168, 8192, 8192⟩, ⟨3072, 4096, 4096⟩, ⟨1024, 2048, 2048⟩,
      ⟨0, 1024, 1024⟩] 1024 64512 65536 1 (by decide) (by decide) (by decide)
      (by decide) (by decide) (by decide)).trans (by decide)
  simp only [testGrowth, andStep, mkDefault, e1, e2, e3, e4, e5, e6, e7,
    Bool.true_and]

/-- C2: whenever the current block cannot satisfy a request, the new
block's size equals the larger of twice the previous block size and the
request rounded up to the allocator's granularity; with default
construction, the test suite's allocation pattern yields the block-size
sequence 1024, 2048, 4096, 8192, 16384, 32768, 65536 (newest first in
the owned-block list). -/
theorem monotonic_resource_growth_doubling_and_sequence :
    (∀ (st st' : monotonic_resource) (b : Block) (bs : List Block)
        (n a p : Nat),
      st.blocks = b :: bs →
      b.base + b.size < alignUp (b.base + b.used) a + n →
      allocate st n a = some (p, st') →
      blockSizes st' = max (2 * b.size) (round_pow2 n) :: blockSizes st) ∧
    testGrowth.1 = true ∧
    blockSizes testGrowth.2 =
      [65536, 32768, 16384, 8192, 4096, 2048, 1024] := by
  refine ⟨?_, ?_, ?_⟩
  · intro st st' b bs n a p heq hnofit hall
    exact growth_formula heq hnofit hall
  · rw [testGrowth_eval]
  · rw [testGrowth_eval]
    rfl

/-- Witness for C2's growth formula: a one-byte request against a full
1024-byte block links a new block of size `max (2 * 1024) (round_pow2 1)
= 2048`. -/
theorem monotonic_resource_growth_doubling_and_sequence_witness :
    (⟨[⟨0, 1024, 1024⟩], 1024, 1024⟩ : monotonic_resource).blocks =
      ⟨0, 1024, 1024⟩ :: [] ∧
    (0 : Nat) + 1024 < alignUp (0 + 1024) 1 + 1 ∧
    blockSizes ⟨[⟨1024, 2048, 1⟩, ⟨0, 1024, 1024⟩], 1024, 3072⟩ =
      max (2 * 1024) (round_pow2 1) ::
        blockSizes ⟨[⟨0, 1024, 1024⟩], 1024, 1024⟩ :=
  ⟨rfl, by decide,
    monotonic_resource_growth_doubling_and_sequence.1 _ _ ⟨0, 1024, 1024⟩ []
      1 1 1024 rfl (by decide) (by decide)⟩

/-- C5: the sized constructor's first block has exactly the constructor
argument rounded up to the power-of-two granularity (minimum 1024):
10 ↦ 1024, 1025 ↦ 2048, 4000 ↦ 4096, also mirroring the test's
fill-to-capacity checks. -/
theorem monotonic_resource_sized_ctor_first_block :
    (∀ s brk0 : Nat, allocate (mkSized s brk0) 1 1 =
      some (alignUp brk0 sysAlign,
        ⟨[⟨alignUp brk0 sysAlign, round_pow2 s, 1⟩], round_pow2 s,
          alignUp brk0 sysAlign + round_pow2 s⟩)) ∧
    round_pow2 10 = 1024 ∧ round_pow2 1025 = 2048 ∧ round_pow2 4000 = 4096 ∧
    (all_alloc_in_same_block (mkSized 10 0) 1024 1).1 = true ∧
    (all_alloc_in_same_block (mkSized 1025 0) 2048 1).1 = true ∧
    (all_alloc_in_same_block (mkSized 4000 0) 4096 1).1 = true := by
  refine ⟨?_, by decide, by decide, by decide, ?_, ?_, ?_⟩
  · intro s brk0
    have hm : max (round_pow2 s) (round_pow2 1) = round_pow2 s := by
      rw [show round_pow2 1 = 1024 from by decide]
      exact Nat.max_eq_left (round_pow2_ge_min s)
    have hag : 1 ≤ max (round_pow2 s) (round_pow2 1) :=
      Nat.le_trans (by decide)
        (Nat.le_trans (round_pow2_ge_min s) (Nat.le_max_left _ _))
    have h := newBlockAlloc_serve (⟨[], round_pow2 s, brk0⟩ :
      monotonic_resource) (round_pow2 s) Nat.one_pos (by decide) hag
    rw [hm] at h
    simpa only [mkSized, allocate] using h
  · rw [show mkSized 10 0 = (⟨[], round_pow2 10, 0⟩ : monotonic_resource)
      from rfl,
      all_alloc_from_empty (round_pow2 10) 0 1024 1 (by decide) (by decide)
        (by decide) (by decide) (by decide)]
  · rw [show mkSized 1025 0 = (⟨[], round_pow2 1025, 0⟩ : monotonic_resource)
      from rfl,
      all_alloc_from_empty (round_pow2 1025) 0 2048 1 (by decide) (by decide)
        (by decide) (by decide) (by decide)]
  · rw [show mkSized 4000 0 = (⟨[], round_pow2 4000, 0⟩ : monotonic_resource)
      from rfl,
      all_alloc_from_empty (round_pow2 4000) 0 4096 1 (by decide) (by decide)
        (by decide) (by decide) (by decide)]

/-- Witness for C5's universally quantified first conjunct at `s = 10`,
`brk0 = 0`. -/
theorem monotonic_resource_sized_ctor_first_block_witness :
    allocate (mkSized 10 0) 1 1 =
      some (alignUp 0 sysAlign,
        ⟨[⟨alignUp 0 sysAlign, round_pow2 10, 1⟩], round_pow2 10,
          alignUp 0 sysAlign + round_pow2 10⟩) :=
  monotonic_resource_sized_ctor_first_block.1 10 0

/-! ### Oversized requests -/

/-- Mirror of the test's first oversized scenario: a fresh default
resource receives `allocate(2048)` (default alignment 16), then the
4096-byte fill check. -/
def testOversize1 : Bool × monotonic_resource :=
  match allocate (mkDefault 0) 2048 16 with
  | some r => all_alloc_in_same_block r.2 4096 1
  | none => (false, mkDefault 0)

/-- Mirror of the test's second oversized scenario: `allocate(2000, 1)`
then `allocate(48, 1)` on a fresh default resource, then the 4096-byte
fill check. -/
def testOversize2 : Bool × monotonic_resource :=
  match allocate (mkDefault 0) 2000 1 with
  | some r1 =>
    match allocate r1.2 48 1 with
    | some r2 => all_alloc_in_same_block r2.2 4096 1
    | none => (false, mkDefault 0)
  | none => (false, mkDefault 0)

theorem testOversize1_eval :
    testOversize1 =
      (true, ⟨[⟨2048, 4096, 4096⟩, ⟨0, 2048, 2048⟩], 1024, 6144⟩) := by
  have t1 : allocate (mkDefault 0) 2048 16 =
      some (0, ⟨[⟨0, 2048, 2048⟩], 1024, 2048⟩) := by decide
  rw [testOversize1, t1]
  exact (all_alloc_new_block 0 2048 2048 [] 1024 2048 4096 1 (by decide)
    (by decide) (by decide) (by decide) (by decide) (by decide)).trans
    (by decide)

theorem testOversize2_eval :
    testOversize2 =
      (true, ⟨[⟨2048, 4096, 4096⟩, ⟨0, 2048, 2048⟩], 1024, 6144⟩) := by
  have t1 : allocate (mkDefault 0) 2000 1 =
      some (0, ⟨[⟨0, 2048, 2000⟩], 1024, 2048⟩) := by decide
  have t2 : allocate (⟨[⟨0, 2048, 2000⟩], 1024, 2048⟩ : monotonic_resource)
      48 1 = some (2000, ⟨[⟨0, 2048, 2048⟩], 1024, 2048⟩) := by decide
  rw [testOversize2, t1]
  dsimp only
  rw [t2]
  exact (all_alloc_new_block 0 2048 2048 [] 1024 2048 4096 1 (by decide)
    (by decide) (by decide) (by decide) (by decide) (by decide)).trans
    (by decide)

/-- C3 counterexample: the claim that an oversized request `n` gets a
dedicated block sized exactly to fit `n` (rounded to alignment), leaving
subsequent block sizes unaffected, is false.  On a fresh default
resource, `allocate(2000, 1)` creates a block of size 2048, not
`alignUp 2000 1 = 2000`; and after `allocate(2048, 1)` a subsequent
one-byte allocation is served from a new 4096-byte block, whereas
without the large request the same allocation creates a 1024-byte
block. -/
theorem monotonic_resource_oversized_exact_fit_refuted :
    ((allocate (mkDefault 0) 2000 1).map fun r => blockSizes r.2) =
      some [2048] ∧
    ¬ (2048 : Nat) = alignUp 2000 1 ∧
    ((allocate (mkDefault 0) 2048 1).bind fun r =>
      (allocate r.2 1 1).map fun r2 => blockSizes r2.2) =
      some [4096, 2048] ∧
    ((allocate (mkDefault 0) 1 1).map fun r => blockSizes r.2) =
      some [1024] := by
  refine ⟨by decide, by decide, ?_, by decide⟩
  have t1 : allocate (mkDefault 0) 2048 1 =
      some (0, ⟨[⟨0, 2048, 2048⟩], 1024, 2048⟩) := by decide
  rw [t1]
  decide

/-- C3 amended: a request `n` that exceeds what doubling the previous
block would provide is served from a new block sized `round_pow2 n`
(the request rounded up to the power-of-two granularity, minimum 1024,
not exactly `n`); that block becomes the current block, so subsequent
block sizes continue doubling from it and are enlarged, never shrunk,
by the one large request — exactly what the test's oversized scenarios
observe. -/
theorem monotonic_resource_oversized_dedicated_rounded :
    (∀ (st st' : monotonic_resource) (b : Block) (bs : List Block)
        (n a p : Nat),
      st.blocks = b :: bs →
      b.base + b.size < alignUp (b.base + b.used) a + n →
      2 * b.size ≤ round_pow2 n →
      allocate st n a = some (p, st') →
      blockSizes st' = round_pow2 n :: blockSizes st) ∧
    (testOversize1.1 = true ∧
      blockSizes testOversize1.2 = [4096, 2048]) ∧
    (testOversize2.1 = true ∧
      blockSizes testOversize2.2 = [4096, 2048]) := by
  refine ⟨?_, ⟨?_, ?_⟩, ⟨?_, ?_⟩⟩
  · intro st st' b bs n a p heq hnofit hover hall
    have h := growth_formula heq hnofit hall
    rwa [Nat.max_eq_right hover] at h
  · rw [testOversize1_eval]
  · rw [testOversize1_eval]
    rfl
  · rw [testOversize2_eval]
  · rw [testOversize2_eval]
    rfl

/-- Witness for the amended C3 at the concrete oversized request
`allocate(2000, 1)` against a full 16-byte head block. -/
theorem monotonic_resource_oversized_dedicated_rounded_witness :
    (⟨[⟨0, 16, 16⟩], 1024, 16⟩ : monotonic_resource).blocks =
      ⟨0, 16, 16⟩ :: [] ∧
    (0 : Nat) + 16 < alignUp (0 + 16) 1 + 2000 ∧
    2 * 16 ≤ round_pow2 2000 ∧
    blockSizes ⟨[⟨16, 2048, 2000⟩, ⟨0, 16, 16⟩], 1024, 2064⟩ =
      round_pow2 2000 :: blockSizes ⟨[⟨0, 16, 16⟩], 1024, 16⟩ :=
  ⟨rfl, by decide, by decide,
    monotonic_resource_oversized_dedicated_rounded.1 _ _ ⟨0, 16, 16⟩ []
      2000 1 16 rfl (by decide) (by decide) (by decide)⟩

/-! ### Caller-supplied buffers -/

/-- Serving a sequence of byte-aligned requests whose total fits the
current block's remaining space consumes it in place: every pointer is
within the consumed range, and only the head block's cursor moves. -/
theorem runAlloc_seq_fill :
    ∀ (ns : List Nat) (base size u : Nat) (bs : List Block) (isz brk : Nat),
      u + ns.sum ≤ size →
      (∀ x ∈ (runAlloc ⟨⟨base, size, u⟩ :: bs, isz, brk⟩
          (ns.map fun n => (n, 1))).1,
        base + u ≤ x.1 ∧ x.1 + x.2 ≤ base + u + ns.sum) ∧
      (runAlloc ⟨⟨base, size, u⟩ :: bs, isz, brk⟩
          (ns.map fun n => (n, 1))).2 =
        ⟨⟨base, size, u + ns.sum⟩ :: bs, isz, brk⟩ := by
  intro ns
  induction ns with
  | nil =>
    intro base size u bs isz brk h
    constructor
    · intro x hx
      simp [runAlloc] at hx
    · simp [runAlloc]
  | cons n ns ih =>
    intro base size u bs isz brk h
    rw [List.sum_cons] at h
    have hall : allocate ⟨⟨base, size, u⟩ :: bs, isz, brk⟩ n 1 =
        some (base + u, ⟨⟨base, size, u + n⟩ :: bs, isz, brk⟩) := by
      simp only [allocate]
      rw [alignUp_one, if_pos (by omega)]
      have h2 : base + u + n - base = u + n := by omega
      rw [h2]
    obtain ⟨ih1, ih2⟩ := ih base size (u + n) bs isz brk (by omega)
    rw [List.map_cons]
    rw [runAlloc, hall]
    dsimp only
    constructor
    · intro x hx
      rcases List.mem_cons.mp hx with hx | hx
      · rw [hx]
        dsimp only
        rw [List.sum_cons]
        have : (0 : Nat) ≤ ns.sum := Nat.zero_le _
        omega
      · have := ih1 x hx
        rw [List.sum_cons]
        omega
    · rw [ih2, List.sum_cons]
      have h3 : u + n + ns.sum = u + (n + ns.sum) := by omega
      rw [h3]

/-- Mirror of one buffer sub-test: two consecutive
`all_alloc_in_same_block` rounds on a resource built over a
caller-supplied buffer of size `k` at address 0. -/
def testBuffer (k bytes1 bytes2 : Nat) : Bool × monotonic_resource :=
  andStep (andStep (true, mkBuffer 0 k) bytes1 1) bytes2 1

theorem testBuffer512_eval :
    testBuffer 512 512 1024 =
      (true, ⟨[⟨512, 1024, 1024⟩, ⟨0, 512, 512⟩], 1024, 1536⟩) := by
  have e1 : all_alloc_in_same_block ⟨[⟨0, 512, 0⟩], 1024, 512⟩ 512 1 =
      (true, ⟨[⟨0, 512, 512⟩], 1024, 512⟩) :=
    (all_alloc_in_head 0 512 0 [] 1024 512 512 1 (by decide) (by decide)
      (by decide) (by decide) (by decide)).trans (by decide)
  have e2 : all_alloc_in_same_block ⟨[⟨0, 512, 512⟩], 1024, 512⟩ 1024 1 =
      (true, ⟨[⟨512, 1024, 1024⟩, ⟨0, 512, 512⟩], 1024, 1536⟩) :=
    (all_alloc_new_block 0 512 512 [] 1024 512 1024 1 (by decide) (by decide)
      (by decide) (by decide) (by decide) (by decide)).trans (by decide)
  simp only [testBuffer, andStep, mkBuffer, e1, e2, Bool.true_and]

theorem testBuffer2048_eval :
    testBuffer 2048 2048 4096 =
      (true, ⟨[⟨2048, 4096, 4096⟩, ⟨0, 2048, 2048⟩], 1024, 6144⟩) := by
  have e1 : all_alloc_in_same_block ⟨[⟨0, 2048, 0⟩], 1024, 2048⟩ 2048 1 =
      (true, ⟨[⟨0, 2048, 2048⟩], 1024, 2048⟩) :=
    (all_alloc_in_head 0 2048 0 [] 1024 2048 2048 1 (by decide) (by decide)
      (by decide) (by decide) (by decide)).trans (by decide)
  have e2 : all_alloc_in_same_block ⟨[⟨0, 2048, 2048⟩], 1024, 2048⟩ 4096 1 =
      (true, ⟨[⟨2048, 4096, 4096⟩, ⟨0, 2048, 2048⟩], 1024, 6144⟩) :=
    (all_alloc_new_block 0 2048 2048 [] 1024 2048 4096 1 (by decide)
      (by decide) (by decide) (by decide) (by decide) (by decide)).trans
      (by decide)
  simp only [testBuffer, andStep, mkBuffer, e1, e2, Bool.true_and]

theorem testBuffer4000_eval :
    testBuffer 4000 4000 4096 =
      (true, ⟨[⟨4000, 8000, 4096⟩, ⟨0, 4000, 4000⟩], 1024, 12000⟩) := by
  have e1 : all_alloc_in_same_block ⟨[⟨0, 4000, 0⟩], 1024, 4000⟩ 4000 1 =
      (true, ⟨[⟨0, 4000, 4000⟩], 1024, 4000⟩) :=
    (all_alloc_in_head 0 4000 0 [] 1024 4000 4000 1 (by decide) (by decide)
      (by decide) (by decide) (by decide)).trans (by decide)
  have e2 : all_alloc_in_same_block ⟨[⟨0, 4000, 4000⟩], 1024, 4000⟩ 4096 1 =
      (true, ⟨[⟨4000, 8000, 4096⟩, ⟨0, 4000, 4000⟩], 1024, 12000⟩) :=
    (all_alloc_new_block 0 4000 4000 [] 1024 4000 4096 1 (by decide)
      (by decide) (by decide) (by decide) (by decide) (by decide)).trans
      (by decide)
  simp only [testBuffer, andStep, mkBuffer, e1, e2, Bool.true_and]

/-- C6: a resource constructed over a caller-supplied buffer of size `k`
uses the buffer in place as its first block with exactly its given size
(no rounding); byte requests totaling at most `k` are all served from
within the buffer; only subsequent blocks are sized by the
growth/rounding policy — mirrored by the three buffer sub-tests. -/
theorem monotonic_resource_buffer_ctor_in_place :
    (∀ base k : Nat, (mkBuffer base k).blocks = [⟨base, k, 0⟩]) ∧
    (∀ (ns : List Nat) (base k : Nat), ns.sum ≤ k →
      ∀ x ∈ (runAlloc (mkBuffer base k) (ns.map fun n => (n, 1))).1,
        base ≤ x.1 ∧ x.1 + x.2 ≤ base + k) ∧
    (∀ (st st' : monotonic_resource) (bs : List Block)
        (base k u n a p : Nat),
      st.blocks = ⟨base, k, u⟩ :: bs →
      base + k < alignUp (base + u) a + n →
      allocate st n a = some (p, st') →
      blockSizes st' = max (2 * k) (round_pow2 n) :: blockSizes st) ∧
    (testBuffer 512 512 1024).1 = true ∧
    (testBuffer 2048 2048 4096).1 = true ∧
    (testBuffer 4000 4000 4096).1 = true := by
  refine ⟨fun base k => rfl, ?_, ?_, ?_, ?_, ?_⟩
  · intro ns base k hsum x hx
    have h := (runAlloc_seq_fill ns base k 0 [] 1024 (base + k)
      (by omega)).1 x (by
        rw [show mkBuffer base k =
          (⟨[⟨base, k, 0⟩], 1024, base + k⟩ : monotonic_resource) from rfl]
          at hx
        exact hx)
    omega
  · intro st st' bs base k u n a p heq hnofit hall
    exact growth_formula heq hnofit hall
  · rw [testBuffer512_eval]
  · rw [testBuffer2048_eval]
  · rw [testBuffer4000_eval]

/-- Witness for C6 at buffer size 4 with requests of 1 and 2 bytes: the
first returned pointer (address 0, 1 byte) lies within the buffer
`[0, 4)`. -/
theorem monotonic_resource_buffer_ctor_in_place_witness :
    ([1, 2] : List Nat).sum ≤ 4 ∧
    ((0 : Nat) ≤ ((0, 1) : Nat × Nat).1 ∧
      ((0, 1) : Nat × Nat).1 + ((0, 1) : Nat × Nat).2 ≤ 0 + 4) :=
  ⟨by decide,
    monotonic_resource_buffer_ctor_in_place.2.1 [1, 2] 0 4 (by decide)
      (0, 1) (by decide)⟩

/-! ### The `string` container and `to_value` -/

/-- A storage pointer: a shared handle identifying one memory resource.
Copying the handle shares the resource; two handles refer to the same
resource exactly when they are equal. -/
structure storage_ptr where
  id : Nat
deriving DecidableEq

/-- Embeds `memory_resource::is_equal`, lifted to handles: two storage
pointers refer to equal resources when they identify the same
resource. -/
def storage_ptr.is_equal (x y : storage_ptr) : Bool :=
  x.id == y.id

/-- Modelled from the spec: `detail::string_impl`
(`detail/string_impl.hpp` is absent from the sources) — the character
contents of a string.  A default-constructed `string_impl` is empty,
which is the state of a freshly constructed `string`. -/
structure string_impl where
  data : List Char
deriving DecidableEq

/-- Embeds the default constructor `detail::string_impl()`. -/
def string_impl.mkDefault : string_impl := ⟨[]⟩

/-- Embeds `detail::string_impl::size`. -/
def string_impl.size (s : string_impl) : Nat := s.data.length

/-- The `string` container: the storage pointer `sp_` fixed at
construction and the character storage `impl_`. -/
structure string where
  sp : storage_ptr
  impl : string_impl
deriving DecidableEq

/-- Embeds `string::size`. -/
def string.size (s : string) : Nat := s.impl.size

/-- Embeds `string::storage`. -/
def string.storage (s : string) : storage_ptr := s.sp

/-- Embeds `string::at(std::size_t)` (named `at'` because `at` is a
reserved word): bounds-checked element access, raising the
`std::out_of_range` condition exactly when `pos >= size()`.  The string
is returned alongside the outcome to express the strong guarantee. -/
def string.at' (s : string) (pos : Nat) : Except Unit Char × string :=
  if pos ≥ s.size then (Except.error (), s)
  else (Except.ok (s.impl.data.getD pos default), s)

/-- C7: `string::at(pos)` throws a range error if and only if
`pos >= size()`; when `pos < size()` it returns the character at
position `pos`; and in the throwing case the string is left
unchanged. -/
theorem string_at_range_error_iff (s : string) (pos : Nat) :
    ((string.at' s pos).1 = Except.error () ↔ s.size ≤ pos) ∧
    (pos < s.size →
      (string.at' s pos).1 = Except.ok (s.impl.data.getD pos default)) ∧
    (string.at' s pos).2 = s := by
  by_cases h : s.size ≤ pos
  · simp [string.at', h]
  · simp [string.at', h]

/-- Witness for C7 on the one-character string made of the letter
placed below, at position 0. -/
theorem string_at_range_error_iff_witness :
    0 < (⟨⟨0⟩, ⟨['a']⟩⟩ : string).size ∧
    (string.at' ⟨⟨0⟩, ⟨['a']⟩⟩ 0).1 =
      Except.ok ((⟨⟨0⟩, ⟨['a']⟩⟩ : string).impl.data.getD 0 default) :=
  ⟨by decide, (string_at_range_error_iff ⟨⟨0⟩, ⟨['a']⟩⟩ 0).2.1 (by decide)⟩

/-- Embeds the move constructor `string::string(string&&)`: the new
string copies the source's storage pointer and takes its contents; the
source's `impl_` is replaced by a default-constructed `string_impl`.
Returns `(destination, moved-from source)`. -/
def string.moveConstruct (other : string) : string × string :=
  (⟨other.sp, other.impl⟩, ⟨other.sp, string_impl.mkDefault⟩)

/-- C8: after move-construction the destination holds the source's
former character contents and storage (the two storage pointers are
trivially `is_equal`, since the destination's is taken from the
source), and the source is left in a valid default state: empty, while
still carrying its storage pointer. -/
theorem string_move_ctor_transfers_and_empties (a : string) :
    (string.moveConstruct a).1.impl = a.impl ∧
    (string.moveConstruct a).1.storage = a.storage ∧
    storage_ptr.is_equal (string.moveConstruct a).1.storage
      (string.moveConstruct a).2.storage = true ∧
    (string.moveConstruct a).2.size = 0 ∧
    (string.moveConstruct a).2.storage = a.storage := by
  refine ⟨rfl, rfl, ?_, rfl, rfl⟩
  simp [storage_ptr.is_equal, string.moveConstruct, string.storage]

/-- Embeds the copy constructor `string::string(string const&)`:
`sp_(other.sp_)` shares the source's storage, then `assign(other)`
replaces the contents with a copy of the source's characters (the
`assign` body is not in the sources; modelled from its documentation in
the header). -/
def string.copyConstruct (other : string) : string :=
  ⟨other.sp, ⟨other.impl.data⟩⟩

/-- C10: copy construction without an explicit storage pointer makes
the new string share the source's memory resource, while the character
contents are copied. -/
theorem string_copy_ctor_shares_storage (a : string) :
    (string.copyConstruct a).storage = a.storage ∧
    (string.copyConstruct a).impl.data = a.impl.data :=
  ⟨rfl, rfl⟩

/-- Modelled from the spec: the conversion paths a type `T` may provide
to `to_value` (`detail/to_value.hpp` is absent from the sources; the
priority order is documented on `to_value` itself, which dispatches on
`std::is_constructible<value, T&&, storage_ptr>`).  Each available path
is a function producing the converted value from the instance and the
storage pointer. -/
structure conv_hooks (α V : Type) where
  fromCtor : Option (α → storage_ptr → V)
  fromToJson : Option (α → storage_ptr → V)
  fromTraits : Option (α → storage_ptr → V)
  fromGeneric : Option (α → storage_ptr → V)

/-- Modelled from the spec: `to_value(t, sp)` tries, in decreasing
priority, direct construction `value(t, sp)`, the `T::to_json` member,
the `to_value_traits` specialization, then the library's generic
requirements; it is `none` when no conversion path exists (the C++
overload is removed by its constraint). -/
def to_value {α V : Type} (h : conv_hooks α V) (t : α) (sp : storage_ptr) :
    Option V :=
  match h.fromCtor with
  | some c => some (c t sp)
  | none =>
    match h.fromToJson with
    | some f => some (f t sp)
    | none =>
      match h.fromTraits with
      | some f => some (f t sp)
      | none =>
        match h.fromGeneric with
        | some f => some (f t sp)
        | none => none

/-- C9: whenever `value` is constructible from `(T&&, storage_ptr)`,
`to_value(t, sp)` returns exactly `value(t, sp)`: the
direct-construction path takes priority over any `T::to_json` member or
`to_value_traits` specialization the type may also provide. -/
theorem to_value_direct_construction_priority {α V : Type}
    (h : conv_hooks α V) (t : α) (sp : storage_ptr)
    (c : α → storage_ptr → V) (hc : h.fromCtor = some c) :
    to_value h t sp = some (c t sp) := by
  unfold to_value
  rw [hc]

/-- Witness for C9: a type providing all of a direct constructor, a
`to_json` member and a traits specialization converts through the
direct constructor. -/
theorem to_value_direct_construction_priority_witness :
    (⟨some fun t _ => t + 1, some fun t _ => t + 100,
        some fun t _ => t + 200, none⟩ : conv_hooks Nat Nat).fromCtor =
      some (fun t _ => t + 1) ∧
    to_value (⟨some fun t _ => t + 1, some fun t _ => t + 100,
        some fun t _ => t + 200, none⟩ : conv_hooks Nat Nat) 5 ⟨0⟩ =
      some ((fun (t : Nat) (_ : storage_ptr) => t + 1) 5 ⟨0⟩) :=
  ⟨rfl, to_value_direct_construction_priority _ 5 ⟨0⟩ _ rfl⟩

end BoostJson
